import Mathlib

/-!
# Verification of the Automated Python Docstring Generator

This file gives a shallow embedding of `pydocstringGenerator/__init__.py`
(and the relevant fragment of `tools/check_coverage.py`) and proves or
refutes the frozen claims about it.

Modelling conventions:

* The Python `ast` node language is embedded by the inductive types `Exp`,
  `Stmt` and `Node` below, restricted to the constructs the analysed
  functions inspect (function/class definitions, expression statements,
  raise, if, return, pass; names, attributes, calls, string constants,
  yield and yield-from expressions).  Node line information (`lineno`,
  `end_lineno`) is carried as explicit `Nat` fields on the constructors
  that the source reads them from; as in CPython these are 1-based.
* `ast.walk` is breadth-first; it is embedded by `walk` below, a queue
  based traversal driven by a structural fuel argument so that it stays
  kernel-computable.  The fuel (`szN`) counts nodes, and the completeness
  lemma `mem_walk` shows the traversal reaches exactly the descendants.
* Source text is represented by its line buffer, i.e. by the list of
  lines `code.split("\n")` that `insert_docstrings_into_code` computes as
  its very first step; the final `"\n".join(...)` is the inverse of that
  split, so identity of line buffers is identity of texts.
* Python exceptions (IndexError from out-of-range indexing,
  AttributeError from a missing attribute) are modelled by `Option` /
  failure results: a `none` result of an embedded function corresponds to
  the Python function raising.
* Dynamic typing matters in one place: inside
  `insert_docstrings_into_code` the loop `for lines in reversed(doc_lines)`
  rebinds the local variable `lines` (initially the list of source lines)
  to a string.  The embedded state therefore carries that variable as a
  sum `List String ⊕ String`, and indexing it follows Python semantics
  in either case (list indexing yields a line; string indexing yields a
  one-character string).
-/

namespace PyDG

/-- Embedding of the Python expression nodes inspected by the analysed
functions.  `strLit` stands for a string constant (`ast.Str` in the
source's pre-3.12 vocabulary, i.e. an `ast.Constant` holding a `str`);
`constE` stands for any other constant and `attr` for `ast.Attribute`. -/
inductive Exp where
  | name (id : String)
  | attr (value : Exp) (attrName : String)
  | call (func : Exp) (args : List Exp)
  | strLit (s : String)
  | yieldE
  | yieldFromE
  | constE

/-- Embedding of the Python statement nodes inspected by the analysed
functions.  `args` of a function definition is the list of positional
parameter names (`node.args.args` in the source); `line` / `endLine`
are the 1-based `lineno` / `end_lineno` attributes read by the source. -/
inductive Stmt where
  | functionDef (nm : String) (args : List String) (body : List Stmt) (line : Nat)
  | asyncFunctionDef (nm : String) (args : List String) (body : List Stmt) (line : Nat)
  | classDef (nm : String) (body : List Stmt) (line : Nat)
  | exprStmt (e : Exp) (line endLine : Nat)
  | raiseStmt (exc : Option Exp)
  | ifStmt (test : Exp) (body orelse : List Stmt)
  | ret (value : Option Exp)
  | passStmt

/-- A generic AST node, as traversed by `ast.walk`. -/
inductive Node where
  | module (body : List Stmt)
  | stmt (s : Stmt)
  | expr (e : Exp)

/-- The children of a node, in the field order `ast.iter_child_nodes`
produces them (sub-nodes that the analysed functions never match on,
such as the `arguments` object of a function definition, are elided;
they contain no statements and no yield expressions). -/
def Node.children : Node → List Node
  | .module body => body.map Node.stmt
  | .stmt (.functionDef _ _ body _) => body.map Node.stmt
  | .stmt (.asyncFunctionDef _ _ body _) => body.map Node.stmt
  | .stmt (.classDef _ body _) => body.map Node.stmt
  | .stmt (.exprStmt e _ _) => [Node.expr e]
  | .stmt (.raiseStmt exc) => (exc.map Node.expr).toList
  | .stmt (.ifStmt t body orelse) =>
      Node.expr t :: (body.map Node.stmt ++ orelse.map Node.stmt)
  | .stmt (.ret v) => (v.map Node.expr).toList
  | .stmt .passStmt => []
  | .expr (.attr v _) => [Node.expr v]
  | .expr (.call f args) => Node.expr f :: args.map Node.expr
  | .expr _ => []

mutual

/-- Node count of an expression (used as traversal fuel). -/
def szE : Exp → Nat
  | .name _ => 1
  | .attr v _ => 1 + szE v
  | .call f args => 1 + szE f + szEL args
  | .strLit _ => 1
  | .yieldE => 1
  | .yieldFromE => 1
  | .constE => 1

/-- Node count of a list of expressions. -/
def szEL : List Exp → Nat
  | [] => 0
  | e :: l => szE e + szEL l

end

/-- Node count of an optional expression. -/
def szOE : Option Exp → Nat
  | none => 0
  | some e => szE e

mutual

/-- Node count of a statement (used as traversal fuel). -/
def szS : Stmt → Nat
  | .functionDef _ _ body _ => 1 + szSL body
  | .asyncFunctionDef _ _ body _ => 1 + szSL body
  | .classDef _ body _ => 1 + szSL body
  | .exprStmt e _ _ => 1 + szE e
  | .raiseStmt exc => 1 + szOE exc
  | .ifStmt t body orelse => 1 + szE t + szSL body + szSL orelse
  | .ret v => 1 + szOE v
  | .passStmt => 1

/-- Node count of a list of statements. -/
def szSL : List Stmt → Nat
  | [] => 0
  | s :: l => szS s + szSL l

end

/-- Node count of a node. -/
def szN : Node → Nat
  | .module body => 1 + szSL body
  | .stmt s => szS s
  | .expr e => szE e

/-- Total node count of a queue of nodes. -/
def szNL : List Node → Nat
  | [] => 0
  | n :: l => szN n + szNL l

/-- Breadth-first traversal with explicit fuel: the queue-based loop of
`ast.walk`.  With fuel at least the total node count of the queue it
dequeues every node (lemma `mem_walkAux`). -/
def walkAux : Nat → List Node → List Node
  | 0, _ => []
  | _ + 1, [] => []
  | fuel + 1, n :: q => n :: walkAux fuel (q ++ n.children)

/-- Embedding of `ast.walk(node)`: breadth-first enumeration of the node
and all of its descendants. -/
def walk (n : Node) : List Node := walkAux (szN n) [n]

/-- `a` is `n` itself or a descendant of `n` — the reachability relation
that `ast.walk` enumerates. -/
inductive Reaches : Node → Node → Prop
  | refl (n : Node) : Reaches n n
  | step {n m a : Node} : m ∈ n.children → Reaches m a → Reaches n a

/-! ## Python string and list primitives used by the source -/

/-- Python `" " * n`. -/
def pySpaces (n : Nat) : String := String.mk (List.replicate n ' ')

/-- Python `s.lstrip(" ")`: remove leading space characters. -/
def pyLstripSpace (s : String) : String :=
  String.mk (s.toList.dropWhile (fun c => c == ' '))

/-- `len(s) - len(s.lstrip(" "))`, the indentation computation of
`insert_docstrings_into_code`. -/
def pyIndentWidth (s : String) : Nat := s.length - (pyLstripSpace s).length

/-- Python `line.strip() == ""`: the line consists of whitespace only. -/
def pyIsBlank (s : String) : Bool :=
  s.toList.all (fun c =>
    c == ' ' || c == '\t' || c == '\n' || c == '\r' || c == '\x0b' || c == '\x0c')

/-- Auxiliary state for `pySplitNL`. -/
def pySplitNLAux : List Char → List Char → List String
  | [], acc => [String.mk acc.reverse]
  | '\n' :: rest, acc => String.mk acc.reverse :: pySplitNLAux rest []
  | c :: rest, acc => pySplitNLAux rest (c :: acc)

/-- Python `s.split("\n")`: split at every newline, keeping empty pieces;
always returns at least one piece. -/
def pySplitNL (s : String) : List String := pySplitNLAux s.toList []

/-- Python `xs.insert(i, x)` for a non-negative index: clamped insertion. -/
def pyInsert {α : Type} (xs : List α) (i : Nat) (x : α) : List α :=
  xs.take i ++ x :: xs.drop i

/-- Python `del xs[a:b]` for non-negative bounds: remove the elements with
indices in `[a, b)`, clamped to the list. -/
def pyDelSlice {α : Type} (xs : List α) (a b : Nat) : List α :=
  if b ≤ a then xs else xs.take a ++ xs.drop b

/-- Python `str.capitalize()` (ASCII model, which is what the generated
identifier names use): first character upper-cased, the rest
lower-cased. -/
def pyCapitalize (s : String) : String :=
  match s.toList with
  | [] => ""
  | c :: cs => String.mk (c.toUpper :: cs.map Char.toLower)

/-! ## Attribute accessors shared by the analysed functions

Python reads `node.lineno` and `node.body` through dynamic attribute
access.  Every node the inventory ever stores has both attributes; the
totalised accessors below return the stored field for those constructors
and a default elsewhere. -/

/-- The `lineno` attribute of the statements the inventory stores. -/
def Stmt.lineno : Stmt → Nat
  | .functionDef _ _ _ l => l
  | .asyncFunctionDef _ _ _ l => l
  | .classDef _ _ l => l
  | .exprStmt _ l _ => l
  | _ => 0

/-- The `body` attribute of the compound statements. -/
def Stmt.bodyOf : Stmt → List Stmt
  | .functionDef _ _ b _ => b
  | .asyncFunctionDef _ _ b _ => b
  | .classDef _ b _ => b
  | .ifStmt _ b _ => b
  | _ => []

/-- True exactly for `ast.AsyncFunctionDef` nodes. -/
def Stmt.isAsyncDef : Stmt → Bool
  | .asyncFunctionDef _ _ _ _ => true
  | _ => false

/-! ## `extract_parameters`, `ast.get_docstring`, and the inventory -/

/-- Embeds `extract_parameters(node)`: the positional parameter names for
function-like nodes (`ast.FunctionDef` and `ast.AsyncFunctionDef`), and
the defensive empty list for every other node. -/
def extract_parameters : Stmt → List String
  | .functionDef _ args _ _ => args
  | .asyncFunctionDef _ args _ _ => args
  | _ => []

/-- Embeds `ast.get_docstring(node)` on the node's body: the docstring is
the string constant of a leading expression statement, if any. -/
def get_docstring : List Stmt → Option String
  | .exprStmt (.strLit s) _ _ :: _ => some s
  | _ => none

/-- One inventory record of `map_nodes` for a function, method or class:
the owning node, its name, its parameter names and its docstring flag. -/
structure Entry where
  node : Stmt
  name : String
  params : List String
  has_doc : Bool

/-- A class record of `map_nodes`: an `Entry` plus the method records
built from the direct function definitions of the class body. -/
structure ClassEntry where
  node : Stmt
  name : String
  params : List String
  has_doc : Bool
  methods : List Entry

/-- The rewrite-target view of a class record (the class dict itself is
appended to the flattened worklist alongside its methods). -/
def ClassEntry.toEntry (c : ClassEntry) : Entry :=
  ⟨c.node, c.name, c.params, c.has_doc⟩

/-- The inventory produced by `map_nodes`: the "functions" and "classes"
lists of the returned dictionary. -/
structure NodeMap where
  functions : List Entry
  classes : List ClassEntry

/-- Breadth-first traversal that carries each node's parent, embedding
`ast.walk` over a tree previously annotated by `attach_parents` (the
root's parent is `none`). -/
def walkPAux : Nat → List (Node × Option Node) → List (Node × Option Node)
  | 0, _ => []
  | _ + 1, [] => []
  | fuel + 1, (n, pa) :: q =>
      (n, pa) :: walkPAux fuel (q ++ n.children.map (fun c => (c, some n)))

/-- `ast.walk` with parent links attached. -/
def walkP (n : Node) : List (Node × Option Node) := walkPAux (szN n) [(n, none)]

/-- `isinstance(getattr(node, "parent", None), ast.ClassDef)`. -/
def isClassNode : Option Node → Bool
  | some (.stmt (.classDef _ _ _)) => true
  | _ => false

/-- The "functions" record `map_nodes` builds from a walked node: an
`ast.FunctionDef` whose immediate parent is not a class definition. -/
def funEntry? : Node × Option Node → Option Entry
  | (.stmt (.functionDef nm args body l), par) =>
      if isClassNode par then none
      else some ⟨.functionDef nm args body l, nm,
        extract_parameters (.functionDef nm args body l),
        (get_docstring body).isSome⟩
  | _ => none

/-- The method record `map_nodes` builds from a direct item of a class
body: only `ast.FunctionDef` items qualify. -/
def methodEntry? : Stmt → Option Entry
  | .functionDef nm args body l =>
      some ⟨.functionDef nm args body l, nm,
        extract_parameters (.functionDef nm args body l),
        (get_docstring body).isSome⟩
  | _ => none

/-- The class record `map_nodes` builds from a walked `ast.ClassDef`. -/
def clsEntry? : Node × Option Node → Option ClassEntry
  | (.stmt (.classDef nm body l), _) =>
      some ⟨.classDef nm body l, nm, [], (get_docstring body).isSome,
        body.filterMap methodEntry?⟩
  | _ => none

/-- Embeds `map_nodes(tree)`: walk the parent-annotated tree and collect
free functions (parent not a class) and classes with their direct-body
methods. -/
def map_nodes (tree : Node) : NodeMap :=
  ⟨(walkP tree).filterMap funEntry?, (walkP tree).filterMap clsEntry?⟩

/-! ## `detect_raises` and `detect_yields` -/

/-- One step of the `detect_raises` loop body.  For a raise of a
constructor call the source reads `n.exc.func.id`; when the callee is not
a simple name (`ast.Name`) that attribute access raises AttributeError,
modelled by `none`. -/
def raiseStep (acc : List String) (m : Node) : Option (List String) :=
  match m with
  | .stmt (.raiseStmt (some e)) =>
      match e with
      | .call f _ =>
          match f with
          | .name id => some (acc ++ [id])
          | _ => none
      | .name id => some (acc ++ [id])
      | _ => some acc
  | _ => some acc

/-- Embeds `detect_raises(node)`: fold the loop body over the walk of the
node; `none` models the AttributeError escape. -/
def detect_raises (n : Node) : Option (List String) :=
  (walk n).foldlM raiseStep []

/-- The name a walked node contributes to the `detect_raises` result:
a raise of a direct name contributes the name, a raise of a call with a
simple-name callee contributes the callee's name. -/
def raiseContrib : Node → Option String
  | .stmt (.raiseStmt (some (.call (.name id) _))) => some id
  | .stmt (.raiseStmt (some (.name id))) => some id
  | _ => none

/-- A walked node is safe for `detect_raises`: it is not a raise of a
constructor call whose callee is something other than a simple name. -/
def raiseCalleeOk : Node → Bool
  | .stmt (.raiseStmt (some (.call (.name _) _))) => true
  | .stmt (.raiseStmt (some (.call _ _))) => false
  | _ => true

/-- True for `ast.Yield` and `ast.YieldFrom` nodes. -/
def isYieldNode : Node → Bool
  | .expr .yieldE => true
  | .expr .yieldFromE => true
  | _ => false

/-- Embeds `detect_yields(node)`: some walked descendant is a yield or
yield-from expression. -/
def detect_yields (n : Node) : Bool :=
  (walk n).any isYieldNode

/-! ## The docstring synthesizers -/

/-- Embeds `generate_docstring_google(name, params)`. -/
def generate_docstring_google (name : String) (params : List String) : String :=
  "\"\"\"" ++ pyCapitalize name ++ "." ++ "\n\nArgs:\n" ++
    (if params.isEmpty then "    None"
     else String.intercalate "\n" (params.map (fun p => "    " ++ p ++ ": Description."))) ++
    "\nReturns:\n    Description.\n\"\"\""

/-- Embeds `generate_docstring_numpy(name, params)`. -/
def generate_docstring_numpy (name : String) (params : List String) : String :=
  "\"\"\"" ++ pyCapitalize name ++ "." ++ "\n\nParameters\n----------\n" ++
    (if params.isEmpty then "None"
     else String.intercalate "\n" (params.map (fun p => p ++ " : type\n    Description."))) ++
    "\n\nReturns\n-------\ntype\n    Description.\n\"\"\""

/-- Embeds `generate_docstring_rest(name, params)`. -/
def generate_docstring_rest (name : String) (params : List String) : String :=
  "\"\"\"" ++ pyCapitalize name ++ "." ++ "\n\n" ++
    (if params.isEmpty then ""
     else String.intercalate "\n" (params.map (fun p => ":param " ++ p ++ ": Description."))) ++
    "\n\n:returns: Description.\n\"\"\""

/-- Embeds `build_docstring(format_type, name, params)`: dispatch on the
convention string, with the reST form as the fall-through default. -/
def build_docstring (format_type name : String) (params : List String) : String :=
  if format_type = "Google" then generate_docstring_google name params
  else if format_type = "NumPy" then generate_docstring_numpy name params
  else generate_docstring_rest name params

/-! ## The rewrite engine `insert_docstrings_into_code` -/

/-- Stable insertion of an entry into a list sorted by `lineno`
descending (an entry moves in front of the first entry whose line number
does not exceed its own). -/
def insertDesc (x : Entry) : List Entry → List Entry
  | [] => [x]
  | y :: ys => if y.node.lineno ≤ x.node.lineno then x :: y :: ys else y :: insertDesc x ys

/-- Embeds `sorted(all_nodes, key=lambda x: x["node"].lineno,
reverse=True)`: a stable descending sort by line number. -/
def pySortDesc : List Entry → List Entry
  | [] => []
  | x :: xs => insertDesc x (pySortDesc xs)

/-- Embeds the worklist flattening of `insert_docstrings_into_code`:
free functions, then for each class the class itself followed by its
methods. -/
def flatten_nodes (m : NodeMap) : List Entry :=
  m.functions ++ (m.classes.map (fun c => c.toEntry :: c.methods)).flatten

/-- Strip leading blank lines (`while doc_content and
doc_content[0].strip() == "": doc_content.pop(0)`). -/
def dropBlankLead : List String → List String
  | [] => []
  | l :: ls => if pyIsBlank l then dropBlankLead ls else l :: ls

/-- Strip leading and trailing blank lines from the synthesized block. -/
def stripBlankEnds (ls : List String) : List String :=
  (dropBlankLead (dropBlankLead ls).reverse).reverse

/-- The mutable state of the rewrite loop: the working buffer
`new_lines`, and the Python local variable `lines`, which starts as the
list of source lines but is rebound to a string (the first line of the
last inserted block) by the inner loop `for lines in reversed(doc_lines)`
— the variable shadowing present in the source. -/
structure RWState where
  new_lines : List String
  linesV : Sum (List String) String

/-- One iteration of the rewrite loop of `insert_docstrings_into_code`
over a single inventory entry.  `none` models an IndexError escape
(indexing `lines[node.lineno - 1]` out of range, or `node.body[0]` of an
empty body). -/
def insertStep (format_type mode : String) (st : RWState) (item : Entry) : Option RWState :=
  if mode = "missing" ∧ item.has_doc = true then some st
  else
    let doc := build_docstring format_type item.name item.params
    let defLine? : Option String :=
      match st.linesV with
      | .inl ls => ls.get? (item.node.lineno - 1)
      | .inr s => (s.toList.get? (item.node.lineno - 1)).map String.singleton
    match defLine? with
    | none => none
    | some def_line =>
      let indent := pyIndentWidth def_line
      let doc_lines := (stripBlankEnds (pySplitNL doc)).map
        (fun l => pySpaces (indent + 4) ++ l)
      let withDel : Option (List String × Nat) :=
        if item.has_doc then
          match item.node.bodyOf with
          | [] => none
          | first :: _ =>
            match first with
            | .exprStmt (.strLit _) l e => some (pyDelSlice st.new_lines (l - 1) e, l - 1)
            | _ => some (st.new_lines, item.node.lineno)
        else some (st.new_lines, item.node.lineno)
      match withDel with
      | none => none
      | some (nl, insertion_index) =>
        some ⟨(doc_lines.reverse).foldl (fun acc ln => pyInsert acc insertion_index ln) nl,
          match doc_lines with
          | [] => st.linesV
          | h :: _ => .inr h⟩

/-- Embeds `insert_docstrings_into_code(code, node_map, format_type,
mode)` on the line buffer `code.split("\n")`; the result, when no
exception escapes, is the line buffer whose `"\n".join` the source
returns. -/
def insert_docstrings_into_code (codeLines : List String) (node_map : NodeMap)
    (format_type mode : String) : Option (List String) :=
  ((pySortDesc (flatten_nodes node_map)).foldlM (insertStep format_type mode)
    ⟨codeLines, Sum.inl codeLines⟩).map RWState.new_lines

/-! ## `check_pep257` and the coverage collaborator -/

/-- Outcome of the external `pydocstyle.check` invocation: a list of
violation records (kept abstract as strings) or a raised exception. -/
inductive CheckOutcome where
  | ok (violations : List String)
  | exn (msg : String)

/-- Embeds `check_pep257(code)` as a function of the external checker's
outcome.  The second component records whether `os.remove(tmp_path)`
executed: in the source that call textually follows the checker
invocation with no try/finally, so it runs only when the invocation
returns normally, and an exception propagates with the temporary file
still on disk. -/
def check_pep257 (checker : CheckOutcome) : CheckOutcome × Bool :=
  match checker with
  | .ok vs => (.ok vs, true)
  | .exn m => (.exn m, false)

/-- Embeds the qualifying-declaration test of `calc_coverage` in
`tools/check_coverage.py`: `isinstance(node, (ast.FunctionDef,
ast.AsyncFunctionDef, ast.ClassDef))`. -/
def coverage_qualifies : Stmt → Bool
  | .functionDef _ _ _ _ => true
  | .asyncFunctionDef _ _ _ _ => true
  | .classDef _ _ _ => true
  | _ => false

/-! ## Concrete test inputs

The trees below are the `ast.parse` results of small Python sources,
written out node by node (line numbers as CPython assigns them). -/

/-- AST of `"def foo():\n    pass\n\ndef bar():\n    pass"`. -/
def treeTwoFuns : Node := Node.module
  [ .functionDef "foo" [] [.passStmt] 1,
    .functionDef "bar" [] [.passStmt] 4 ]

/-- Line buffer of the same two-function source. -/
def linesTwoFuns : List String :=
  ["def foo():", "    pass", "", "def bar():", "    pass"]

/-- AST of a source with ten padding comment lines followed by
`def f():` on line 11 and `def g():` on line 13 (comments leave no AST
nodes). -/
def treeLateFuns : Node := Node.module
  [ .functionDef "f" [] [.passStmt] 11,
    .functionDef "g" [] [.passStmt] 13 ]

/-- Line buffer of the late-function source. -/
def linesLateFuns : List String :=
  ["# 1", "# 2", "# 3", "# 4", "# 5", "# 6", "# 7", "# 8", "# 9", "# 10",
   "def f():", "    pass", "def g():", "    pass"]

/-- AST node of
`def outer():\n    def inner():\n        yield` — a function whose only
yield sits inside a nested function definition. -/
def outerFn : Stmt :=
  .functionDef "outer" [] [.functionDef "inner" [] [.exprStmt .yieldE 3 3] 2] 1

/-- The nested generator function inside `outerFn`. -/
def innerFn : Stmt := .functionDef "inner" [] [.exprStmt .yieldE 3 3] 2

/-- AST node of `def f():\n    raise errors.Bad()` — a raise of a
constructor call whose callee is a dotted (attribute) expression. -/
def dottedRaiseFn : Stmt :=
  .functionDef "f" [] [.raiseStmt (some (.call (.attr (.name "errors") "Bad") []))] 1

/-- AST node of
`def g():\n    if c:\n        raise A\n    raise B` — the textually first
raise (`A`) is nested one block deeper than the second (`B`). -/
def nestedRaiseFn : Stmt :=
  .functionDef "g" []
    [.ifStmt (.name "c") [.raiseStmt (some (.name "A"))] [],
     .raiseStmt (some (.name "B"))] 1

/-- AST node of a function raising `ValueError()` twice and then `KeyError`,
all with simple-name targets. -/
def simpleRaisesFn : Stmt :=
  .functionDef "h" []
    [.raiseStmt (some (.call (.name "ValueError") [])),
     .raiseStmt (some (.call (.name "ValueError") [])),
     .raiseStmt (some (.name "KeyError"))] 1

/-! ## Walk completeness: `ast.walk` enumerates exactly the descendants -/

theorem szNL_append (a b : List Node) : szNL (a ++ b) = szNL a + szNL b := by
  induction a with
  | nil => simp [szNL]
  | cons n l ih => simp [szNL, ih]; omega

theorem szNL_map_stmt (l : List Stmt) : szNL (l.map Node.stmt) = szSL l := by
  induction l with
  | nil => simp [szNL, szSL]
  | cons s t ih => simp [szNL, szSL, szN, ih]

theorem szNL_map_expr (l : List Exp) : szNL (l.map Node.expr) = szEL l := by
  induction l with
  | nil => simp [szNL, szEL]
  | cons e t ih => simp [szNL, szEL, szN, ih]

theorem szN_pos (n : Node) : 1 ≤ szN n := by
  rcases n with body | s | e
  · simp only [szN]; omega
  · cases s <;> (simp only [szN, szS]; omega)
  · cases e <;> (simp only [szN, szE]; omega)

theorem children_szNL_lt (n : Node) : szNL n.children < szN n := by
  rcases n with body | s | e
  · simp only [Node.children, szN, szNL_map_stmt]; omega
  · rcases s with ⟨nm, args, b, l⟩ | ⟨nm, args, b, l⟩ | ⟨nm, b, l⟩ | ⟨e, l, el⟩ | exc | ⟨t, b, o⟩ | v | _
    · simp only [Node.children, szN, szS, szNL_map_stmt]; omega
    · simp only [Node.children, szN, szS, szNL_map_stmt]; omega
    · simp only [Node.children, szN, szS, szNL_map_stmt]; omega
    · simp only [Node.children, szN, szS, szNL]; omega
    · rcases exc with _ | e <;>
        simp [Node.children, szN, szS, szOE, szNL]
    · simp only [Node.children, szN, szS, szNL, szNL_append, szNL_map_stmt]; omega
    · rcases v with _ | e <;>
        simp [Node.children, szN, szS, szOE, szNL]
    · simp only [Node.children, szN, szS, szNL]; omega
  · rcases e with id | ⟨v, a⟩ | ⟨f, args⟩ | s | _ | _ | _
    · simp only [Node.children, szN, szE, szNL]; omega
    · simp only [Node.children, szN, szE, szNL]; omega
    · simp only [Node.children, szN, szE, szNL, szNL_map_expr]; omega
    · simp only [Node.children, szN, szE, szNL]; omega
    · simp only [Node.children, szN, szE, szNL]; omega
    · simp only [Node.children, szN, szE, szNL]; omega
    · simp only [Node.children, szN, szE, szNL]; omega

theorem reaches_iff (n a : Node) :
    Reaches n a ↔ a = n ∨ ∃ m ∈ n.children, Reaches m a := by
  constructor
  · intro h
    cases h with
    | refl => exact Or.inl rfl
    | step hm hr => exact Or.inr ⟨_, hm, hr⟩
  · intro h
    rcases h with h | ⟨m, hm, hr⟩
    · subst h; exact Reaches.refl _
    · exact Reaches.step hm hr

theorem mem_walkAux (fuel : Nat) :
    ∀ (q : List Node) (a : Node), szNL q ≤ fuel →
      (a ∈ walkAux fuel q ↔ ∃ n ∈ q, Reaches n a) := by
  induction fuel with
  | zero =>
      intro q a hq
      cases q with
      | nil => simp [walkAux]
      | cons n t =>
          exfalso
          have h1 := szN_pos n
          simp [szNL] at hq
          omega
  | succ fuel ih =>
      intro q a hq
      cases q with
      | nil => simp [walkAux]
      | cons n t =>
          have hsz : szNL (t ++ n.children) ≤ fuel := by
            have h1 := children_szNL_lt n
            have h2 : szNL (t ++ n.children) = szNL t + szNL n.children := szNL_append t n.children
            have h3 : szNL (n :: t) = szN n + szNL t := rfl
            omega
          have hih := ih (t ++ n.children) a hsz
          simp only [walkAux, List.mem_cons, hih, List.mem_append]
          constructor
          · rintro (h | ⟨m, hm | hm, hr⟩)
            · exact ⟨n, Or.inl rfl, h ▸ Reaches.refl n⟩
            · exact ⟨m, Or.inr hm, hr⟩
            · exact ⟨n, Or.inl rfl, Reaches.step hm hr⟩
          · rintro ⟨m, hm | hm, hr⟩
            · subst hm
              rcases (reaches_iff m a).1 hr with h | ⟨c, hc, hcr⟩
              · exact Or.inl h
              · exact Or.inr ⟨c, Or.inr hc, hcr⟩
            · exact Or.inr ⟨m, Or.inl hm, hr⟩

theorem mem_walk (n a : Node) : a ∈ walk n ↔ Reaches n a := by
  have h : szNL [n] ≤ szN n := by simp [szNL]
  rw [walk, mem_walkAux (szN n) [n] a h]
  simp

/-! ## Helper lemmas about the embedded operations -/

theorem foldlM_raiseStep_ok (l : List Node) :
    ∀ acc : List String, (∀ m ∈ l, raiseCalleeOk m = true) →
      l.foldlM raiseStep acc = some (acc ++ l.filterMap raiseContrib) := by
  induction l with
  | nil => intro acc _; simp
  | cons m t ih =>
      intro acc hok
      have hm : raiseCalleeOk m = true := hok m (List.mem_cons_self m t)
      have ht : ∀ x ∈ t, raiseCalleeOk x = true :=
        fun x hx => hok x (List.mem_cons_of_mem m hx)
      have hstep : raiseStep acc m = some (acc ++ (raiseContrib m).toList) := by
        rcases m with body | s | e
        · simp [raiseStep, raiseContrib]
        · rcases s with ⟨nm, args, b, l⟩ | ⟨nm, args, b, l⟩ | ⟨nm, b, l⟩ | ⟨ee, l, el⟩ | exc | ⟨tt, b, o⟩ | v | _
          · simp [raiseStep, raiseContrib]
          · simp [raiseStep, raiseContrib]
          · simp [raiseStep, raiseContrib]
          · simp [raiseStep, raiseContrib]
          · rcases exc with _ | e2
            · simp [raiseStep, raiseContrib]
            · rcases e2 with id | ⟨v2, a2⟩ | ⟨f, args2⟩ | s2 | _ | _ | _
              · simp [raiseStep, raiseContrib]
              · simp [raiseStep, raiseContrib]
              · rcases f with id | ⟨v3, a3⟩ | ⟨g, args3⟩ | s3 | _ | _ | _
                · simp [raiseStep, raiseContrib]
                · exact absurd hm (by simp [raiseCalleeOk])
                · exact absurd hm (by simp [raiseCalleeOk])
                · exact absurd hm (by simp [raiseCalleeOk])
                · exact absurd hm (by simp [raiseCalleeOk])
                · exact absurd hm (by simp [raiseCalleeOk])
                · exact absurd hm (by simp [raiseCalleeOk])
              · simp [raiseStep, raiseContrib]
              · simp [raiseStep, raiseContrib]
              · simp [raiseStep, raiseContrib]
              · simp [raiseStep, raiseContrib]
          · simp [raiseStep, raiseContrib]
          · simp [raiseStep, raiseContrib]
          · simp [raiseStep, raiseContrib]
        · simp [raiseStep, raiseContrib]
      rw [List.foldlM_cons, hstep]
      simp only [Option.bind_eq_bind, Option.some_bind]
      rw [ih (acc ++ (raiseContrib m).toList) ht]
      rcases h : raiseContrib m with _ | v <;> simp [List.filterMap_cons, h]

theorem foldl_pyInsert_reverse {α : Type} (block : List α) (acc : List α) (i : Nat)
    (h : i ≤ acc.length) :
    (block.reverse).foldl (fun a ln => pyInsert a i ln) acc =
      acc.take i ++ block ++ acc.drop i := by
  induction block with
  | nil => simp
  | cons x t ih =>
      have hlen : (acc.take i).length = i := by
        simp [List.length_take]; omega
      rw [List.reverse_cons, List.foldl_append, ih]
      simp only [List.foldl_cons, List.foldl_nil, pyInsert]
      rw [List.append_assoc, List.take_left' hlen, List.drop_left' hlen]
      simp

theorem mem_insertDesc (x y : Entry) (l : List Entry) :
    y ∈ insertDesc x l ↔ y = x ∨ y ∈ l := by
  induction l with
  | nil => simp [insertDesc]
  | cons a t ih =>
      by_cases h : a.node.lineno ≤ x.node.lineno
      · simp [insertDesc, h]
      · simp only [insertDesc, if_neg h, List.mem_cons, ih]
        tauto

theorem mem_pySortDesc (y : Entry) (l : List Entry) :
    y ∈ pySortDesc l ↔ y ∈ l := by
  induction l with
  | nil => simp [pySortDesc]
  | cons a t ih => simp [pySortDesc, mem_insertDesc, ih]

theorem foldlM_insertStep_skip (fmt : String) (l : List Entry) :
    ∀ st : RWState, (∀ e ∈ l, e.has_doc = true) →
      l.foldlM (insertStep fmt "missing") st = some st := by
  induction l with
  | nil => intro st _; rfl
  | cons e t ih =>
      intro st hall
      have he : e.has_doc = true := hall e (List.mem_cons_self e t)
      have hstep : insertStep fmt "missing" st e = some st := by
        simp [insertStep, he]
      rw [List.foldlM_cons, hstep]
      simp only [Option.bind_eq_bind, Option.some_bind]
      exact ih st (fun x hx => hall x (List.mem_cons_of_mem e hx))

theorem methodEntry_not_async (item : Stmt) (m : Entry)
    (h : methodEntry? item = some m) : m.node.isAsyncDef = false := by
  rcases item with ⟨nm, args, b, l⟩ | ⟨nm, args, b, l⟩ | ⟨nm, b, l⟩ | ⟨ee, l, el⟩ | exc | ⟨tt, b, o⟩ | v | _
  · rw [methodEntry?] at h
    rcases Option.some.injEq _ _ ▸ h with h2
    rw [← h2]
    rfl
  all_goals simp [methodEntry?] at h

theorem map_nodes_functions_not_async (tree : Node) :
    ∀ e ∈ (map_nodes tree).functions, e.node.isAsyncDef = false := by
  intro e he
  rcases List.mem_filterMap.1 he with ⟨⟨m, par⟩, _, hf⟩
  rcases m with body | s | ex
  · simp [funEntry?] at hf
  · rcases s with ⟨nm, args, b, l⟩ | ⟨nm, args, b, l⟩ | ⟨nm, b, l⟩ | ⟨ee, l, el⟩ | exc | ⟨tt, b, o⟩ | v | _
    · by_cases hc : isClassNode par = true
      · simp [funEntry?, hc] at hf
      · simp only [funEntry?, Bool.not_eq_true] at hf hc
        rw [if_neg (by simp [hc])] at hf
        rcases Option.some.injEq _ _ ▸ hf with h
        rw [← h]
        rfl
    all_goals simp [funEntry?] at hf
  · simp [funEntry?] at hf

theorem map_nodes_classes_not_async (tree : Node) :
    ∀ c ∈ (map_nodes tree).classes,
      c.node.isAsyncDef = false ∧ ∀ m ∈ c.methods, m.node.isAsyncDef = false := by
  intro c hc
  rcases List.mem_filterMap.1 hc with ⟨⟨m, par⟩, _, hf⟩
  rcases m with body | s | ex
  · simp [clsEntry?] at hf
  · rcases s with ⟨nm, args, b, l⟩ | ⟨nm, args, b, l⟩ | ⟨nm, b, l⟩ | ⟨ee, l, el⟩ | exc | ⟨tt, b, o⟩ | v | _
    case classDef =>
      rw [clsEntry?] at hf
      rcases Option.some.injEq _ _ ▸ hf with h2
      rw [← h2]
      refine ⟨rfl, ?_⟩
      intro m hm
      rcases List.mem_filterMap.1 hm with ⟨item, _, hitem⟩
      exact methodEntry_not_async item m hitem
    all_goals simp [clsEntry?] at hf
  · simp [clsEntry?] at hf

/-! ## The claims -/

/-- C1.  The claim states that every inserted documentation block is
indented by the indentation of its own declaration header line plus four
spaces, also when the inventory holds more than one entry.  The code
violates this: after the first (bottom-most) entry is processed, the
inner loop `for lines in reversed(doc_lines)` has rebound the variable
`lines` to a string, so the next entry's `def_line = lines[node.lineno - 1]`
reads a single character of the previously inserted docstring line
instead of the declaration header.  On the two-function source below the
upper function `foo` (header indentation 0, so the claim requires
4 spaces) receives a block indented by 5 spaces: `def_line` is the
one-character string " ", giving indent 1.  The theorem evaluates the
embedded rewrite engine on that source and exhibits the wrong
indentation. -/
theorem c1_indentation_uses_shadowed_lines_variable :
    insert_docstrings_into_code linesTwoFuns (map_nodes treeTwoFuns) "Google" "missing" =
      some ["def foo():", "     \"\"\"Foo.", "     ", "     Args:", "         None",
            "     Returns:", "         Description.", "     \"\"\"", "    pass", "",
            "def bar():", "    \"\"\"Bar.", "    ", "    Args:", "        None",
            "    Returns:", "        Description.", "    \"\"\"", "    pass"] ∧
    pyIndentWidth "def foo():" + 4 = 4 ∧
    pyIndentWidth "     \"\"\"Foo." = 5 := by
  refine ⟨by decide, by decide, by decide⟩

/-- C2 (counterexample).  The claim demands that `detect_yields` return
false on a function whose only yields sit inside a nested function
definition.  The code walks all descendants with `ast.walk`, which
descends into nested function definitions, so the outer function also
reports true. -/
theorem c2_outer_function_with_nested_yield_returns_true :
    detect_yields (Node.stmt outerFn) = true ∧
    detect_yields (Node.stmt innerFn) = true := by
  refine ⟨by decide, by decide⟩

/-- C2 (amended).  `detect_yields` returns true exactly for declarations
containing at least one yield or yield-delegation expression at any
nesting depth — including yields that occur only inside a nested
function definition, for which both the outer and the nested node
report true. -/
theorem c2_detect_yields_iff_reachable_yield (n : Node) :
    detect_yields n = true ↔ ∃ m, Reaches n m ∧ isYieldNode m = true := by
  rw [detect_yields, List.any_eq_true]
  constructor
  · rintro ⟨m, hm, hy⟩
    exact ⟨m, (mem_walk n m).1 hm, hy⟩
  · rintro ⟨m, hr, hy⟩
    exact ⟨m, (mem_walk n m).2 hr, hy⟩

/-- C3.  Replace-all mode on an entry that already has documentation:
for a run whose inventory holds a single class entry whose first body
statement is a one-line-or-longer string-constant statement spanning
lines `s+1 .. e` (1-based, inclusive), the rewrite deletes exactly that
line span from the buffer and inserts the freshly synthesized block at
that position: the output is the prefix above the old docstring, then
the new block (indented from the header line `dl` of the class), then —
unshifted and uncorrupted — every line that followed the old docstring.
No line of the old docstring survives, and the lines of unrelated
members below are preserved verbatim in order. -/
theorem c3_rewrite_deletes_old_docstring_span (lines : List String)
    (fmt nm doc : String) (restBody : List Stmt) (L s e : Nat) (dl : String)
    (_hL : 1 ≤ L)
    (hdl : lines.get? (L - 1) = some dl)
    (hse : s < e)
    (hs : s ≤ lines.length) :
    insert_docstrings_into_code lines
      ⟨[], [⟨Stmt.classDef nm (Stmt.exprStmt (Exp.strLit doc) (s + 1) e :: restBody) L,
             nm, [], true, []⟩]⟩
      fmt "rewrite"
    = some (lines.take s ++
        (stripBlankEnds (pySplitNL (build_docstring fmt nm []))).map
          (fun l => pySpaces (pyIndentWidth dl + 4) ++ l) ++
        lines.drop e) := by
  have hstep : insertStep fmt "rewrite" ⟨lines, Sum.inl lines⟩
      ⟨Stmt.classDef nm (Stmt.exprStmt (Exp.strLit doc) (s + 1) e :: restBody) L,
        nm, [], true⟩ =
    some ⟨lines.take s ++
        ((stripBlankEnds (pySplitNL (build_docstring fmt nm []))).map
          (fun l => pySpaces (pyIndentWidth dl + 4) ++ l)) ++
        lines.drop e,
      match (stripBlankEnds (pySplitNL (build_docstring fmt nm []))).map
          (fun l => pySpaces (pyIndentWidth dl + 4) ++ l) with
      | [] => Sum.inl lines
      | h :: _ => Sum.inr h⟩ := by
    rw [insertStep]
    rw [if_neg (by simp)]
    simp only [Stmt.lineno, Stmt.bodyOf, hdl]
    have hdel : pyDelSlice lines (s + 1 - 1) e = lines.take s ++ lines.drop e := by
      rw [pyDelSlice]
      simp only [Nat.add_sub_cancel]
      rw [if_neg (by omega)]
    simp only [Nat.add_sub_cancel] at hdel ⊢
    rw [hdel]
    simp only [if_true]
    have hlen2 : s ≤ (lines.take s ++ lines.drop e).length := by
      simp [List.length_take, List.length_drop]
      omega
    rw [foldl_pyInsert_reverse _ _ _ hlen2]
    have hlen : (lines.take s).length = s := by
      simp [List.length_take]; omega
    rw [List.take_left' hlen, List.drop_left' hlen]
  rw [insert_docstrings_into_code]
  have hlist : pySortDesc (flatten_nodes
      ⟨[], [⟨Stmt.classDef nm (Stmt.exprStmt (Exp.strLit doc) (s + 1) e :: restBody) L,
             nm, [], true, []⟩]⟩) =
      [⟨Stmt.classDef nm (Stmt.exprStmt (Exp.strLit doc) (s + 1) e :: restBody) L,
        nm, [], true⟩] := rfl
  rw [hlist]
  rw [List.foldlM_cons, hstep]
  rfl

/-- C3 witness: the hypotheses and the conclusion of
`c3_rewrite_deletes_old_docstring_span` at the concrete source
`class A:` / 4-space-indented one-line docstring on line 2 / `pass`. -/
theorem c3_rewrite_deletes_old_docstring_span_witness :
    (1 ≤ 1) ∧
    ((["class A:", "    \"\"\"old.\"\"\"", "    pass"] : List String).get? 0 =
      some "class A:") ∧
    (1 < 2) ∧
    (1 ≤ (["class A:", "    \"\"\"old.\"\"\"", "    pass"] : List String).length) ∧
    insert_docstrings_into_code ["class A:", "    \"\"\"old.\"\"\"", "    pass"]
      ⟨[], [⟨Stmt.classDef "A" (Stmt.exprStmt (Exp.strLit "old.") 2 2 :: [Stmt.passStmt]) 1,
             "A", [], true, []⟩]⟩
      "Google" "rewrite"
    = some ((["class A:", "    \"\"\"old.\"\"\"", "    pass"] : List String).take 1 ++
        (stripBlankEnds (pySplitNL (build_docstring "Google" "A" []))).map
          (fun l => pySpaces (pyIndentWidth "class A:" + 4) ++ l) ++
        (["class A:", "    \"\"\"old.\"\"\"", "    pass"] : List String).drop 2) :=
  ⟨by decide, by rfl, by decide, by decide,
    c3_rewrite_deletes_old_docstring_span
      ["class A:", "    \"\"\"old.\"\"\"", "    pass"] "Google" "A" "old."
      [Stmt.passStmt] 1 1 2 "class A:" (by decide) (by rfl) (by decide) (by decide)⟩

/-- C4.  The claim asserts idempotence of fill-missing mode: a second
pass over the first pass's re-parsed output reproduces that output.  On
the parseable source embedded in `linesLateFuns` / `treeLateFuns` (two
undocumented functions at lines 11 and 13) the first pass already
raises: after the bottom entry is processed the shadowed variable
`lines` is the 9-character string of the first inserted docstring line,
and `lines[node.lineno - 1]` for the upper entry indexes position 10 of
it — an IndexError, modelled by the `none` result.  No first-pass output
exists, so no second pass can be run, let alone return it unchanged. -/
theorem c4_first_fill_missing_pass_raises :
    insert_docstrings_into_code linesLateFuns (map_nodes treeLateFuns) "Google" "missing" =
      none := by
  decide

/-- C5.  Fill-missing mode on an inventory whose entries all carry the
has-documentation flag skips every entry, so the returned line buffer —
and hence the joined text — is exactly the input, character for
character. -/
theorem c5_missing_mode_fully_documented_identity (codeLines : List String)
    (node_map : NodeMap) (fmt : String)
    (h : (flatten_nodes node_map).all (fun e => e.has_doc) = true) :
    insert_docstrings_into_code codeLines node_map fmt "missing" = some codeLines := by
  have hall : ∀ e ∈ pySortDesc (flatten_nodes node_map), e.has_doc = true := by
    intro e he
    exact List.all_eq_true.1 h e ((mem_pySortDesc e _).1 he)
  rw [insert_docstrings_into_code, foldlM_insertStep_skip _ _ _ hall]
  rfl

/-- C5 witness: a fully documented one-function inventory over a
three-line source is returned untouched. -/
theorem c5_missing_mode_fully_documented_identity_witness :
    ((flatten_nodes ⟨[⟨Stmt.functionDef "f" []
        [Stmt.exprStmt (Exp.strLit "doc") 2 2] 1, "f", [], true⟩], []⟩).all
      (fun e => e.has_doc) = true) ∧
    insert_docstrings_into_code ["def f():", "    \"\"\"doc\"\"\"", "    pass"]
      ⟨[⟨Stmt.functionDef "f" [] [Stmt.exprStmt (Exp.strLit "doc") 2 2] 1,
         "f", [], true⟩], []⟩
      "Google" "missing"
    = some ["def f():", "    \"\"\"doc\"\"\"", "    pass"] :=
  ⟨by decide,
    c5_missing_mode_fully_documented_identity
      ["def f():", "    \"\"\"doc\"\"\"", "    pass"]
      ⟨[⟨Stmt.functionDef "f" [] [Stmt.exprStmt (Exp.strLit "doc") 2 2] 1,
         "f", [], true⟩], []⟩
      "Google" (by decide)⟩

/-- C6.  For every convention string, every name, and every parameter
list (the empty one included), `build_docstring` is total — the embedded
function is defined on all inputs, mirroring that the source performs no
partial operation — and its output opens with the documentation
delimiter followed by the summary line `Capitalize(name) + "."` on a
line of its own. -/
theorem c6_build_docstring_contains_summary_line (format_type name : String)
    (params : List String) :
    ∃ t : String, build_docstring format_type name params =
      "\"\"\"" ++ pyCapitalize name ++ "." ++ "\n" ++ t := by
  rw [build_docstring]
  by_cases h1 : format_type = "Google"
  · rw [if_pos h1, generate_docstring_google]
    refine ⟨"\nArgs:\n" ++
      (if params.isEmpty then "    None"
       else String.intercalate "\n" (params.map (fun p => "    " ++ p ++ ": Description."))) ++
      "\nReturns:\n    Description.\n\"\"\"", ?_⟩
    rw [show ("\n\nArgs:\n" : String) = "\n" ++ "\nArgs:\n" from rfl]
    simp only [String.append_assoc]
  · rw [if_neg h1]
    by_cases h2 : format_type = "NumPy"
    · rw [if_pos h2, generate_docstring_numpy]
      refine ⟨"\nParameters\n----------\n" ++
        (if params.isEmpty then "None"
         else String.intercalate "\n" (params.map (fun p => p ++ " : type\n    Description."))) ++
        "\n\nReturns\n-------\ntype\n    Description.\n\"\"\"", ?_⟩
      rw [show ("\n\nParameters\n----------\n" : String) = "\n" ++ "\nParameters\n----------\n" from rfl]
      simp only [String.append_assoc]
    · rw [if_neg h2, generate_docstring_rest]
      refine ⟨"\n" ++
        (if params.isEmpty then ""
         else String.intercalate "\n" (params.map (fun p => ":param " ++ p ++ ": Description."))) ++
        "\n\n:returns: Description.\n\"\"\"", ?_⟩
      rw [show ("\n\n" : String) = "\n" ++ "\n" from rfl]
      simp only [String.append_assoc]

/-- C7.  Any convention value outside the closed set is dispatched to
the reST-style generator: both `if` tests fail and the final return is
exactly `generate_docstring_rest(name, params)`. -/
theorem c7_unknown_convention_falls_back_to_rest (format_type name : String)
    (params : List String)
    (h1 : format_type ≠ "Google") (h2 : format_type ≠ "NumPy")
    (_h3 : format_type ≠ "reST") :
    build_docstring format_type name params = generate_docstring_rest name params := by
  rw [build_docstring, if_neg h1, if_neg h2]

/-- C7 witness: the convention string "Markdown" is outside the closed
set and is answered with the reST form. -/
theorem c7_unknown_convention_falls_back_to_rest_witness :
    build_docstring "Markdown" "area" ["r"] = generate_docstring_rest "area" ["r"] :=
  c7_unknown_convention_falls_back_to_rest "Markdown" "area" ["r"]
    (by decide) (by decide) (by decide)

/-- C8 (counterexample).  The claim says `detect_raises` never fails and
lists names in textual order, covering dotted/attribute callees.  Both
parts fail on the code: raising `errors.Bad()` makes the source read
`.id` off an `ast.Attribute`, an AttributeError (modelled `none`); and
because `ast.walk` is breadth-first, the function raising `A` inside an
`if` before raising `B` at top level yields ["B", "A"], not the textual
["A", "B"]. -/
theorem c8_attribute_callee_fails_and_walk_order_not_textual :
    detect_raises (Node.stmt dottedRaiseFn) = none ∧
    detect_raises (Node.stmt nestedRaiseFn) = some ["B", "A"] := by
  refine ⟨by decide, by decide⟩

/-- C8 (amended).  Whenever no raise statement reachable in the walk of
the node raises a constructor call with a non-simple (e.g. dotted)
callee, `detect_raises` succeeds and returns, in the breadth-first walk
order of the raise statements and including duplicates, the raised
name for a direct-name raise and the callee's name for a simple-name
constructor-call raise; the result is empty when the node contains no
raise statement. -/
theorem c8_detect_raises_ok_on_simple_targets (n : Node)
    (h : (walk n).all raiseCalleeOk = true) :
    detect_raises n = some ((walk n).filterMap raiseContrib) := by
  rw [detect_raises, foldlM_raiseStep_ok (walk n) [] (List.all_eq_true.1 h)]
  rfl

/-- C8 witness: on a function raising `ValueError()` twice and then
`KeyError`, all targets are simple, and the amended theorem applies. -/
theorem c8_detect_raises_ok_on_simple_targets_witness :
    ((walk (Node.stmt simpleRaisesFn)).all raiseCalleeOk = true) ∧
    detect_raises (Node.stmt simpleRaisesFn) =
      some ((walk (Node.stmt simpleRaisesFn)).filterMap raiseContrib) :=
  ⟨by decide, c8_detect_raises_ok_on_simple_targets (Node.stmt simpleRaisesFn) (by decide)⟩

/-- C9.  The claim demands that the temporary file be removed on every
exit path of `check_pep257`.  In the source `os.remove(tmp_path)` simply
follows the `pydocstyle.check` call with no try/finally, so when the
external checker raises, the exception propagates (as the claim allows)
but the removal never executes: the temporary artifact leaks.  On the
success path the removal does execute. -/
theorem c9_tempfile_leaks_when_checker_raises :
    check_pep257 (CheckOutcome.exn "pydocstyle crashed") =
      (CheckOutcome.exn "pydocstyle crashed", false) ∧
    check_pep257 (CheckOutcome.ok ["D100"]) = (CheckOutcome.ok ["D100"], true) :=
  ⟨rfl, rfl⟩

/-- C10.  `map_nodes` never places an async function definition in the
inventory — not under "functions" (the isinstance test names only
`ast.FunctionDef`), not among any class's methods (same test on direct
body items), and not as a class — hence the flattened worklist that
`insert_docstrings_into_code` processes never contains one, even though
`extract_parameters` accepts async definitions and the coverage
collaborator counts them as qualifying declarations. -/
theorem c10_inventory_never_contains_async_defs (tree : Node) :
    ((map_nodes tree).functions.all (fun e => !e.node.isAsyncDef) = true ∧
     (map_nodes tree).classes.all
       (fun c => !c.node.isAsyncDef && c.methods.all (fun m => !m.node.isAsyncDef)) = true ∧
     (flatten_nodes (map_nodes tree)).all (fun e => !e.node.isAsyncDef) = true) ∧
    (∀ (nm : String) (args : List String) (body : List Stmt) (l : Nat),
      extract_parameters (Stmt.asyncFunctionDef nm args body l) = args ∧
      coverage_qualifies (Stmt.asyncFunctionDef nm args body l) = true) := by
  have hfun := map_nodes_functions_not_async tree
  have hcls := map_nodes_classes_not_async tree
  refine ⟨⟨?_, ?_, ?_⟩, fun nm args body l => ⟨rfl, rfl⟩⟩
  · refine List.all_eq_true.2 (fun e he => ?_)
    rw [hfun e he]
    rfl
  · refine List.all_eq_true.2 (fun c hc => ?_)
    rcases hcls c hc with ⟨h1, h2⟩
    rw [h1]
    simp only [Bool.not_false, Bool.true_and]
    refine List.all_eq_true.2 (fun m hm => ?_)
    rw [h2 m hm]
    rfl
  · refine List.all_eq_true.2 (fun e he => ?_)
    rw [flatten_nodes] at he
    rcases List.mem_append.1 he with h | h
    · rw [hfun e h]
      rfl
    · rcases List.mem_flatten.1 h with ⟨lst, hlst, hel⟩
      rcases List.mem_map.1 hlst with ⟨c, hc, rfl⟩
      rcases List.mem_cons.1 hel with rfl | hm
      · have h1 := (hcls c hc).1
        simp [ClassEntry.toEntry, h1]
      · rw [(hcls c hc).2 e hm]
        rfl

end PyDG
